import Mathlib

/-!
Verification of the ShowPlot repository: a shallow embedding of the
client-side editor state machine (`src/routes/Profile.jsx`) and of the
Express backend handlers (`server.js`), with theorems settling the
specification's claims about them.

Conventions of the embedding:
- JavaScript arrays become `List`, objects become structures.
- Mongo documents are modelled as lists of records; an id is a `String`.
- Numbers that carry geometry (positions, scales, rotations) are `ℚ`
  (the idealisation of IEEE doubles used throughout; no claim here is
  about float rounding or NaN propagation).
- Bytes are `Nat` values; a Node `Buffer` is a `List Nat`.
-/

namespace ShowPlot

/-! ## Undo/redo history reducer (`historyReducer`, Profile.jsx 175-208) -/

/-- The reducer state `{ past, present, future }`. -/
structure History (α : Type) where
  past : List α
  present : α
  future : List α
deriving Repr, DecidableEq

/-- Reducer actions.  The JS `set` action carries an updater function or a
value; the reducer only uses the resulting value `next`, which is what the
embedding carries. -/
inductive HAction (α : Type) where
  | set (next : α)
  | undo
  | redo
  | reset (value : α)
deriving Repr, DecidableEq

/-- `const limit = 50` inside `historyReducer`. -/
def historyLimit : Nat := 50

/-- `historyReducer` (Profile.jsx 175-208).  The JS guard
`next === state.present` (reference equality) is modelled as decidable
equality; identical references are structurally equal, so on the
structurally-unequal inputs the claims quantify over the two agree. -/
def historyReducer {α : Type} [DecidableEq α] (state : History α) (action : HAction α) :
    History α :=
  match action with
  | .set next =>
      if next = state.present then state
      else
        let past := if historyLimit ≤ state.past.length then state.past.drop 1 else state.past
        ⟨past ++ [state.present], next, []⟩
  | .undo =>
      match state.past.getLast? with
      | none => state
      | some previous => ⟨state.past.dropLast, previous, state.present :: state.future⟩
  | .redo =>
      match state.future with
      | [] => state
      | next :: rest => ⟨state.past ++ [state.present], next, rest⟩
  | .reset value => ⟨[], value, []⟩

/-! ## Canvas editor node operations (Profile.jsx 544-750, 1560-1600)

The editor keeps `nodes : List EditorNode` (through `useHistoryState`);
every manipulation is a pure function of the previous list.  Geometry is
idealised over `ℚ`. -/

/-- `clamp` (Profile.jsx 167-169): `Math.max(min, Math.min(max, n))`. -/
def clamp {α : Type} [LinearOrder α] (n mn mx : α) : α :=
  max mn (min mx n)

/-- The per-node input-list profile attached by `addNodeAt`. -/
structure NodeProfile where
  instrument : String
  mic : String
  stand : String
  notes : String
  cables : String
deriving Repr, DecidableEq

/-- A placed canvas node, as built by `addNodeAt` (Profile.jsx 580-596).
The JS field `type` is `ntype` here (`type` is reserved). -/
structure EditorNode where
  id : String
  ntype : String
  assetId : String
  x : ℚ
  y : ℚ
  rotation : ℚ
  scale : ℚ
  label : String
  flipX : Bool
  locked : Bool
  profile : NodeProfile
deriving Repr, DecidableEq

/-- JS `v || 1` on a number: `0` is falsy and becomes `1`. -/
def orOne (q : ℚ) : ℚ := if q = 0 then 1 else q

/-- `addNodeAt` (Profile.jsx 544-598): appends a fresh node with
`rotation 0, scale 1, label '', flipX false, locked false`. -/
def addNodeAt (nodes : List EditorNode) (id assetId : String) (x y : ℚ)
    (profile : NodeProfile) : List EditorNode :=
  nodes ++ [⟨id, "asset", assetId, x, y, 0, 1, "", false, false, profile⟩]

/-- `deleteNode` (Profile.jsx 600-603). -/
def deleteNode (nodes : List EditorNode) (nodeId : String) : List EditorNode :=
  nodes.filter (fun n => n.id ≠ nodeId)

/-- `rotateNode` (Profile.jsx 605-609); `(n.rotation || 0) + deltaDeg`
(`‖ 0` is the identity on `ℚ`). -/
def rotateNode (nodes : List EditorNode) (nodeId : String) (deltaDeg : ℚ) :
    List EditorNode :=
  nodes.map (fun n => if n.id = nodeId then { n with rotation := n.rotation + deltaDeg } else n)

/-- `scaleNode` (Profile.jsx 611-619): `clamp((n.scale || 1) * factor, 0.25, 4)`. -/
def scaleNode (nodes : List EditorNode) (nodeId : String) (factor : ℚ) :
    List EditorNode :=
  nodes.map (fun n =>
    if n.id = nodeId then { n with scale := clamp (orOne n.scale * factor) 0.25 4 } else n)

/-- `flipNodeX` (Profile.jsx 621-623). -/
def flipNodeX (nodes : List EditorNode) (nodeId : String) : List EditorNode :=
  nodes.map (fun n => if n.id = nodeId then { n with flipX := !n.flipX } else n)

/-- `setNodeLabel` (Profile.jsx 625-630), with the prompt's answer as input. -/
def setNodeLabel (nodes : List EditorNode) (nodeId : String) (text : String) :
    List EditorNode :=
  nodes.map (fun n => if n.id = nodeId then { n with label := text } else n)

/-- `toggleNodeLock` (Profile.jsx 632-634). -/
def toggleNodeLock (nodes : List EditorNode) (nodeId : String) : List EditorNode :=
  nodes.map (fun n => if n.id = nodeId then { n with locked := !n.locked } else n)

/-- `moveLayer` (Profile.jsx 636-647): splice the node out of its index and
re-insert it at `clamp(from + delta, 0, length - 1)`. -/
def moveLayer (nodes : List EditorNode) (nodeId : String) (delta : Int) :
    List EditorNode :=
  match nodes.findIdx? (fun n => n.id = nodeId) with
  | none => nodes
  | some i =>
      let dst := (clamp ((i : Int) + delta) 0 ((nodes.length : Int) - 1)).toNat
      if dst = i then nodes
      else
        match nodes.get? i with
        | none => nodes
        | some item => (nodes.eraseIdx i).insertIdx dst item

/-- The duplicate action (Profile.jsx 1324-1339): copy the node under a new
id, offset by `(+24, +24)`. -/
def duplicateNode (nodes : List EditorNode) (nodeId newId : String) : List EditorNode :=
  match nodes.find? (fun n => n.id = nodeId) with
  | none => nodes
  | some src => nodes ++ [{ src with id := newId, x := src.x + 24, y := src.y + 24 }]

/-- `onStageTouchMove` pinch update (Profile.jsx 731-750):
`scale := clamp(startScale * (dist / startDist), 0.25, 4)` and
`rotation := startRotation + Δangle`; `ratio` stands for `dist / g.dist`
and `deltaAngleDeg` for `((angle - g.angle) * 180) / Math.PI`. -/
def pinchUpdate (nodes : List EditorNode) (nodeId : String)
    (startScale startRotation ratio deltaAngleDeg : ℚ) : List EditorNode :=
  nodes.map (fun n =>
    if n.id = nodeId then
      { n with scale := clamp (startScale * ratio) 0.25 4,
               rotation := startRotation + deltaAngleDeg }
    else n)

/-- `onTransformEnd` of `StageNode` (Profile.jsx 1586-1594):
`flipX := t.scaleX() < 0`, `scale := clamp(|t.scaleX()|, 0.25, 4)`,
and the transformer's rotation is written through. -/
def transformEndUpdate (nodes : List EditorNode) (nodeId : String)
    (rawScaleX rotation : ℚ) : List EditorNode :=
  nodes.map (fun n =>
    if n.id = nodeId then
      { n with scale := clamp |rawScaleX| 0.25 4,
               rotation := rotation,
               flipX := rawScaleX < 0 }
    else n)

/-- The clear-stage button (Profile.jsx 1059): `setNodes(() => [])`. -/
def clearNodes (_nodes : List EditorNode) : List EditorNode := []

/-- One in-editor manipulation step, covering every `setNodes` call of the
editor (loading a previously saved plot from the server is an external
injection of state, not an editor manipulation). -/
inductive EditorOp where
  | add (id assetId : String) (x y : ℚ) (profile : NodeProfile)
  | del (nodeId : String)
  | rot (nodeId : String) (deltaDeg : ℚ)
  | scl (nodeId : String) (factor : ℚ)
  | flip (nodeId : String)
  | lbl (nodeId : String) (text : String)
  | lock (nodeId : String)
  | layer (nodeId : String) (delta : Int)
  | dup (nodeId newId : String)
  | pinch (nodeId : String) (startScale startRotation ratio deltaAngleDeg : ℚ)
  | tEnd (nodeId : String) (rawScaleX rotation : ℚ)
  | clear

def applyOp (nodes : List EditorNode) : EditorOp → List EditorNode
  | .add id assetId x y profile => addNodeAt nodes id assetId x y profile
  | .del nodeId => deleteNode nodes nodeId
  | .rot nodeId d => rotateNode nodes nodeId d
  | .scl nodeId f => scaleNode nodes nodeId f
  | .flip nodeId => flipNodeX nodes nodeId
  | .lbl nodeId t => setNodeLabel nodes nodeId t
  | .lock nodeId => toggleNodeLock nodes nodeId
  | .layer nodeId d => moveLayer nodes nodeId d
  | .dup nodeId newId => duplicateNode nodes nodeId newId
  | .pinch nodeId s r ratio a => pinchUpdate nodes nodeId s r ratio a
  | .tEnd nodeId sx rot => transformEndUpdate nodes nodeId sx rot
  | .clear => clearNodes nodes

/-- Editor states reachable from the empty stage by manipulation steps. -/
inductive ReachableNodes : List EditorNode → Prop where
  | empty : ReachableNodes []
  | step {nodes : List EditorNode} (op : EditorOp) :
      ReachableNodes nodes → ReachableNodes (applyOp nodes op)

/-- The claimed invariant: every node's scale lies in `[0.25, 4]`. -/
def ScalesOK (nodes : List EditorNode) : Prop :=
  ∀ n ∈ nodes, (0.25 : ℚ) ≤ n.scale ∧ n.scale ≤ 4

/-! ## PNG alpha sniff (`detectPngHasAlpha`, server.js 64-93)

A Node `Buffer` is a `List Nat` of bytes.  Out-of-range reads are modelled
by `getD _ 0`; every read the scan performs is guarded to be in range, so
the default is never consulted on the guarded offsets. -/

/-- `buffer.readUInt32BE(offset)`. -/
def readUInt32BE (b : List Nat) (off : Nat) : Nat :=
  b.getD off 0 * 16777216 + b.getD (off + 1) 0 * 65536 +
    b.getD (off + 2) 0 * 256 + b.getD (off + 3) 0

/-- The 8-byte PNG signature (server.js 67). -/
def pngSignature : List Nat := [0x89, 0x50, 0x4e, 0x47, 0x0d, 0x0a, 0x1a, 0x0a]

/-- `buffer.subarray(0, 8).equals(sig)`. -/
def hasPngSignature (b : List Nat) : Bool := decide (b.take 8 = pngSignature)

/-- ASCII bytes of the chunk type `IHDR`. -/
def typeIHDR : List Nat := [0x49, 0x48, 0x44, 0x52]

/-- ASCII bytes of the chunk type `tRNS`. -/
def typeTRNS : List Nat := [0x74, 0x52, 0x4e, 0x53]

/-- ASCII bytes of the chunk type `IEND`. -/
def typeIEND : List Nat := [0x49, 0x45, 0x4e, 0x44]

/-- The four type bytes of the chunk at `off` as the program sees them:
`buffer.subarray(offset + 4, offset + 8).toString('ascii')` — Node's
`'ascii'` decoding unsets the highest bit of each byte before decoding,
hence the `% 128`. -/
def chunkTypeAt (b : List Nat) (off : Nat) : List Nat :=
  [b.getD (off + 4) 0 % 128, b.getD (off + 5) 0 % 128,
    b.getD (off + 6) 0 % 128, b.getD (off + 7) 0 % 128]

/-- The four raw (unmasked) type bytes of the chunk at `off`, as the PNG
container actually stores them. -/
def rawChunkTypeAt (b : List Nat) (off : Nat) : List Nat :=
  [b.getD (off + 4) 0, b.getD (off + 5) 0, b.getD (off + 6) 0, b.getD (off + 7) 0]

/-- The chunk-scan loop of `detectPngHasAlpha` (server.js 70-90).  `fuel`
bounds the number of iterations; each iteration moves `offset` forward by
at least 12, so the loop guard fails before `b.length` iterations have run
(`pngScan_fuel_stable` below makes the fuel choice immaterial). -/
def pngScan (b : List Nat) : Nat → Nat → Bool
  | 0, _ => false
  | fuel + 1, offset =>
    if offset + 12 ≤ b.length then
      if b.length < offset + 8 + readUInt32BE b offset + 4 then false
      else if chunkTypeAt b offset = typeIHDR ∧ 13 ≤ readUInt32BE b offset ∧
          (b.getD (offset + 8 + 9) 0 = 4 ∨ b.getD (offset + 8 + 9) 0 = 6) then true
      else if chunkTypeAt b offset = typeTRNS then true
      else if chunkTypeAt b offset = typeIEND then false
      else pngScan b fuel (offset + 8 + readUInt32BE b offset + 4)
    else false

/-- `detectPngHasAlpha` (server.js 64-93): reject buffers shorter than 24
bytes or without the PNG signature, then scan chunks from offset 8. -/
def detectPngHasAlpha (b : List Nat) : Bool :=
  if b.length < 24 then false
  else if ¬ hasPngSignature b then false
  else pngScan b b.length 8

/-- A chunk as the scan sees it: declared data length, type bytes, data
start offset. -/
structure PngChunk where
  length : Nat
  ty : List Nat
  dataStart : Nat
deriving Repr, DecidableEq

/-- Spec-side (from the claim's words): the chunks the sequential scan
visits, stopping at `IEND` (inclusive) or in front of a chunk that would
run past the end of the buffer. -/
def scannedChunks (b : List Nat) : Nat → Nat → List PngChunk
  | 0, _ => []
  | fuel + 1, offset =>
    if offset + 12 ≤ b.length then
      if b.length < offset + 8 + readUInt32BE b offset + 4 then []
      else if chunkTypeAt b offset = typeIEND then
        [⟨readUInt32BE b offset, chunkTypeAt b offset, offset + 8⟩]
      else ⟨readUInt32BE b offset, chunkTypeAt b offset, offset + 8⟩ ::
        scannedChunks b fuel (offset + 8 + readUInt32BE b offset + 4)
    else []

/-- Spec-side: a visited chunk signals alpha when it is an `IHDR` chunk of
length at least 13 whose colour type byte is 4 or 6, or a `tRNS` chunk. -/
def chunkSignalsAlpha (b : List Nat) (c : PngChunk) : Bool :=
  decide ((c.ty = typeIHDR ∧ 13 ≤ c.length ∧
    (b.getD (c.dataStart + 9) 0 = 4 ∨ b.getD (c.dataStart + 9) 0 = 6)) ∨
    c.ty = typeTRNS)

/-- Spec-side restatement of the amended claim: at least 24 bytes, the
PNG signature, and some chunk visited by the scan signals alpha — chunk
types taken modulo the high-bit mask of the program's `'ascii'` decode. -/
def pngAlphaSpec (b : List Nat) : Bool :=
  decide (24 ≤ b.length) && hasPngSignature b &&
    (scannedChunks b b.length 8).any (chunkSignalsAlpha b)

/-- The claim as stated, read on the actual container bytes: the chunks
the scan visits when `IHDR`/`tRNS`/`IEND` mean the raw (unmasked) type
bytes. -/
def scannedChunksStrict (b : List Nat) : Nat → Nat → List PngChunk
  | 0, _ => []
  | fuel + 1, offset =>
    if offset + 12 ≤ b.length then
      if b.length < offset + 8 + readUInt32BE b offset + 4 then []
      else if rawChunkTypeAt b offset = typeIEND then
        [⟨readUInt32BE b offset, rawChunkTypeAt b offset, offset + 8⟩]
      else ⟨readUInt32BE b offset, rawChunkTypeAt b offset, offset + 8⟩ ::
        scannedChunksStrict b fuel (offset + 8 + readUInt32BE b offset + 4)
    else []

/-- The claim as stated: a visited chunk signals alpha when its raw type
bytes spell `IHDR` (length ≥ 13, colour type 4 or 6) or `tRNS`. -/
def chunkSignalsAlphaStrict (b : List Nat) (c : PngChunk) : Bool :=
  decide ((c.ty = typeIHDR ∧ 13 ≤ c.length ∧
    (b.getD (c.dataStart + 9) 0 = 4 ∨ b.getD (c.dataStart + 9) 0 = 6)) ∨
    c.ty = typeTRNS)

/-- The claim as stated: at least 24 bytes, the PNG signature, and the
scan — with `IHDR`/`tRNS`/`IEND` read as raw container bytes — encounters
an alpha-signalling chunk. -/
def pngAlphaSpecStrict (b : List Nat) : Bool :=
  decide (24 ≤ b.length) && hasPngSignature b &&
    (scannedChunksStrict b b.length 8).any (chunkSignalsAlphaStrict b)

/-- A 33-byte buffer whose single chunk carries type bytes
`C9 48 44 52` — not `IHDR` in the container, but decoded to `IHDR` by the
program's high-bit-masking `'ascii'` conversion — with length 13 and
colour type byte 6. -/
def maskedIhdrBuffer : List Nat :=
  pngSignature ++ [0, 0, 0, 13] ++ [0xC9, 0x48, 0x44, 0x52] ++
    [0, 0, 0, 1, 0, 0, 0, 1, 8, 6, 0, 0, 0] ++ [1, 2, 3, 4]

/-! ## Taxonomy singleton (server.js 349-393, 444-489)

The `Taxonomy` collection holds at most one document; handlers receive it
as `Option Taxonomy` (`none` before the first write creates it). -/

/-- `normalizeName` (server.js 349-351): `String(value || '').trim()`.
`String.trim` is reimplemented over the character list (dropping
whitespace from both ends) so that it evaluates by kernel reduction; on
the whitespace characters the claims use it agrees with JS `trim`. -/
def normalizeName (value : String) : String :=
  ⟨((value.data.dropWhile Char.isWhitespace).reverse.dropWhile Char.isWhitespace).reverse⟩

/-- One entry of `taxonomySchema`'s `categories` array (server.js 202-215). -/
structure TaxonomyCategory where
  name : String
  sections : List String
deriving Repr, DecidableEq

/-- The taxonomy document. -/
structure Taxonomy where
  categories : List TaxonomyCategory
deriving Repr, DecidableEq

/-- Append `sec` to a category's section list unless it is empty or already
present (server.js 384-389, 482-486). -/
def addSection (c : TaxonomyCategory) (sec : String) : TaxonomyCategory :=
  if sec = "" then c
  else if sec ∈ c.sections then c
  else ⟨c.name, c.sections ++ [sec]⟩

/-- Find the first category named `cat` and add `sec` to it; push a fresh
category at the end when none matches.  This is the find-or-push plus
append-if-missing logic shared by server.js 377-390 and 475-486. -/
def upsertInCats : List TaxonomyCategory → String → String → List TaxonomyCategory
  | [], cat, sec => [addSection ⟨cat, []⟩ sec]
  | c :: rest, cat, sec =>
      if c.name = cat then addSection c sec :: rest
      else c :: upsertInCats rest cat sec

/-- `upsertTaxonomyCategorySection` (server.js 360-393). -/
def upsertTaxonomyCategorySection (doc : Option Taxonomy)
    (categoryRaw sectionRaw : String) : Option Taxonomy :=
  let category := normalizeName categoryRaw
  let sec := normalizeName sectionRaw
  if category = "" ∧ sec = "" then doc
  else
    match doc with
    | none =>
        some ⟨if category = "" then []
          else [⟨category, if sec = "" then [] else [sec]⟩]⟩
    | some t =>
        if category = "" then some t
        else some ⟨upsertInCats t.categories category sec⟩

/-- `POST /api/admin/taxonomy/categories` (server.js 444-461): the updated
document and the HTTP status. -/
def createCategoryH (doc : Option Taxonomy) (nameRaw : String) :
    Option Taxonomy × Nat :=
  let name := normalizeName nameRaw
  if name = "" then (doc, 400)
  else
    match doc with
    | none => (some ⟨[⟨name, []⟩]⟩, 201)
    | some t =>
        if t.categories.any (fun c => c.name = name) then (some t, 201)
        else (some ⟨t.categories ++ [⟨name, []⟩]⟩, 201)

/-- `POST /api/admin/taxonomy/sections` (server.js 463-489). -/
def createSectionH (doc : Option Taxonomy) (categoryRaw nameRaw : String) :
    Option Taxonomy × Nat :=
  let category := normalizeName categoryRaw
  let name := normalizeName nameRaw
  if category = "" then (doc, 400)
  else if name = "" then (doc, 400)
  else
    match doc with
    | none => (some ⟨[⟨category, [name]⟩]⟩, 201)
    | some t => (some ⟨upsertInCats t.categories category name⟩, 201)

/-- Claimed invariant: category names unique, section names unique within
each category. -/
def TaxonomyWF (t : Taxonomy) : Prop :=
  (t.categories.map TaxonomyCategory.name).Nodup ∧
    ∀ c ∈ t.categories, c.sections.Nodup

/-- Claimed append-only growth: every existing category survives under its
name with all of its sections. -/
def TaxonomyGrows (t t' : Taxonomy) : Prop :=
  ∀ c ∈ t.categories, ∃ c' ∈ t'.categories, c'.name = c.name ∧
    ∀ s ∈ c.sections, s ∈ c'.sections

/-- A taxonomy-writing step both preserves well-formedness and only grows
the taxonomy. -/
def TaxStepOK (f : Option Taxonomy → Option Taxonomy) : Prop :=
  ∀ (doc : Option Taxonomy) (t' : Taxonomy),
    (∀ t, doc = some t → TaxonomyWF t) → f doc = some t' →
      TaxonomyWF t' ∧ ∀ t, doc = some t → TaxonomyGrows t t'

/-! ## Stage plot store (server.js 140-174, 560-611) -/

/-- One placed node record of `stagePlotSchema.state` (server.js 145-158).
The JS field `type` is `ntype` here. -/
structure StageNodeRec where
  id : String
  ntype : String
  x : ℚ
  y : ℚ
  rotation : ℚ
  scale : ℚ
  label : String
  flipX : Bool
  locked : Bool
  assetId : String
deriving Repr, DecidableEq

/-- One legacy input record of `stagePlotSchema.inputs` (server.js 161-170). -/
structure InputRec where
  id : String
  channel : String
  instrument : String
  mic : String
deriving Repr, DecidableEq

/-- A `StagePlot` document; `pid` is the Mongo `_id`. -/
structure Plot where
  pid : String
  userId : String
  name : String
  state : List StageNodeRec
  inputs : List InputRec
deriving Repr, DecidableEq

def isHexDigit (c : Char) : Bool :=
  ('0' ≤ c ∧ c ≤ '9') ∨ ('a' ≤ c ∧ c ≤ 'f') ∨ ('A' ≤ c ∧ c ≤ 'F')

/-- `mongoose.isValidObjectId`, modelled from the library's behaviour on
route input: a 24-character hex string (the 12-byte binary form cannot
arrive through JSON).  None of the claims depend on the exact predicate. -/
def isValidObjectId (s : String) : Bool :=
  decide (s.length = 24) && s.data.all isHexDigit

/-- Responses of `POST /api/plots`: 400 invalid id, 404 not found,
200 updated, 201 created. -/
inductive SaveResp where
  | invalidId
  | notFound
  | updated (pid : String)
  | created (pid : String)
deriving Repr, DecidableEq

/-- `StagePlot.findOneAndUpdate({_id, userId}, {$set: {state, name}})`
(server.js 583-587): replace `state` and `name` on the first document
matching both the plot id and the user id; `none` when no document
matches. -/
def updateFirst (db : List Plot) (pid uid : String) (newState : List StageNodeRec)
    (newName : String) : Option (List Plot) :=
  match db with
  | [] => none
  | p :: rest =>
      if p.pid = pid ∧ p.userId = uid then
        some ({ p with state := newState, name := newName } :: rest)
      else
        (updateFirst rest pid uid newState newName).map (p :: ·)

/-- `POST /api/plots` (server.js 576-594).  `name` and `plotId` are trimmed
as in the handler; `freshId` is the `_id` Mongo assigns on create. -/
def savePlotH (db : List Plot) (uid : String) (stateRaw : List StageNodeRec)
    (nameRaw plotIdRaw freshId : String) : List Plot × SaveResp :=
  let name := normalizeName nameRaw
  let plotId := normalizeName plotIdRaw
  if plotId ≠ "" then
    if ¬ isValidObjectId plotId then (db, .invalidId)
    else
      match updateFirst db plotId uid stateRaw name with
      | none => (db, .notFound)
      | some db' => (db', .updated plotId)
  else (db ++ [⟨freshId, uid, name, stateRaw, []⟩], .created freshId)

/-- Responses of `GET /api/plots/:id`. -/
inductive GetPlotResp where
  | invalidId
  | notFound
  | found (p : Plot)
deriving Repr, DecidableEq

/-- `GET /api/plots/:id` (server.js 596-611): `findOne({_id, userId})`. -/
def getPlotH (db : List Plot) (uid id : String) : GetPlotResp :=
  if ¬ isValidObjectId id then .invalidId
  else
    match db.find? (fun p => p.pid = id ∧ p.userId = uid) with
    | none => .notFound
    | some p => .found p

/-- `GET /api/plots` (server.js 560-574): `find({userId})`.  The handler
also sorts by `updatedAt` and projects name/dates; neither changes which
plots are returned (timestamps are not modelled). -/
def listPlotsH (db : List Plot) (uid : String) : List Plot :=
  db.filter (fun p => p.userId = uid)

/-! ## Asset store (server.js 129-138, 334-347, 395-437, 510-527)

The GridFS bucket is modelled as the list of stored file ids. -/

/-- The metadata object stored with an asset (server.js 428):
`{ contentType, hasAlpha }`; `hasAlpha` is `undefined` — an absent key —
for non-PNG uploads, hence `Option Bool`. -/
structure AssetMeta where
  contentType : String
  hasAlpha : Option Bool
deriving Repr, DecidableEq

/-- An `Asset` document (server.js 129-138); the JS field `section` is
`sect` here (`section` is reserved). -/
structure AssetRec where
  aid : String
  name : String
  category : String
  sect : String
  fileId : String
  metadata : AssetMeta
deriving Repr, DecidableEq

/-- An uploaded file as multer buffers it in memory. -/
structure UploadFile where
  originalname : String
  mimetype : String
  buffer : List Nat
deriving Repr, DecidableEq

/-- The `fileFilter` of the multer config (server.js 339-346). -/
def allowedMime (m : String) : Bool :=
  decide (m = "image/png") || decide (m = "image/svg+xml") || decide (m = "image/x-png")

/-- `limits.fileSize` (server.js 337). -/
def maxFileSize : Nat := 2 * 1024 * 1024

/-- Multer acceptance (server.js 334-347): the buffered upload reaches the
route handler only when `fileFilter` accepts the MIME type and the file
size does not exceed `limits.fileSize` (the size cut-off is multer
library semantics for the configured limit). -/
def multerAccepts (f : UploadFile) : Bool :=
  allowedMime f.mimetype && decide (f.buffer.length ≤ maxFileSize)

inductive UploadResp where
  | rejected
  | createdA (a : AssetRec)
deriving Repr, DecidableEq

/-- `POST /api/admin/assets` (server.js 395-437) behind the multer gate:
on acceptance the blob is stored under `fileId`, the asset document `aid`
is created — name defaulting to the original file name, the alpha flag
computed by `detectPngHasAlpha` only for PNG MIME types — and the
taxonomy upsert runs; a rejected upload reaches no storage. -/
def adminAssetUploadH (assets : List AssetRec) (blobs : List String)
    (doc : Option Taxonomy) (f : UploadFile) (name category sect fileId aid : String) :
    List AssetRec × List String × Option Taxonomy × UploadResp :=
  if ¬ multerAccepts f then (assets, blobs, doc, .rejected)
  else
    let hasAlpha : Option Bool :=
      if f.mimetype = "image/png" ∨ f.mimetype = "image/x-png" then
        some (detectPngHasAlpha f.buffer)
      else none
    let asset : AssetRec :=
      ⟨aid, if name = "" then f.originalname else name, category, sect, fileId,
        ⟨f.mimetype, hasAlpha⟩⟩
    (assets ++ [asset], blobs ++ [fileId],
      upsertTaxonomyCategorySection doc category sect, .createdA asset)

inductive DeleteResp where
  | notFoundA
  | okA
deriving Repr, DecidableEq

/-- `DELETE /api/admin/assets/:id` (server.js 510-527): look the asset up
by id; absent → 404 and no change; present → `deleteOne` the document and
`bucket.delete` the blob (blob-side errors ignored), answer `ok`. -/
def deleteAssetH (assets : List AssetRec) (blobs : List String) (id : String) :
    List AssetRec × List String × DeleteResp :=
  match assets.find? (fun a => a.aid = id) with
  | none => (assets, blobs, .notFoundA)
  | some a =>
      (assets.eraseP (fun b => b.aid = id), blobs.eraseP (fun fid => fid = a.fileId),
        .okA)


theorem historyReducer_undo_of_ne_nil {α : Type} [DecidableEq α] (s : History α)
    (h : s.past ≠ []) :
    historyReducer s .undo =
      ⟨s.past.dropLast, s.past.getLast h, s.present :: s.future⟩ := by
  unfold historyReducer
  simp only
  rw [List.getLast?_eq_getLast s.past h]

theorem historyReducer_undo_nil {α : Type} [DecidableEq α] (s : History α)
    (h : s.past = []) : historyReducer s .undo = s := by
  unfold historyReducer
  simp only
  rw [h]
  rfl

/-- C1: undo then redo restores the present when the past is non-empty;
redo then undo restores the present when the future is non-empty; undo
with an empty past and redo with an empty future are identities; a `set`
that changes the present installs the new value, empties the future and
pushes the old present on top of the past. -/
theorem claim_C1_history_reducer {α : Type} [DecidableEq α] (s : History α) (next : α) :
    (s.past ≠ [] →
      (historyReducer (historyReducer s .undo) .redo).present = s.present) ∧
    (s.future ≠ [] →
      (historyReducer (historyReducer s .redo) .undo).present = s.present) ∧
    (s.past = [] → historyReducer s .undo = s) ∧
    (s.future = [] → historyReducer s .redo = s) ∧
    (next ≠ s.present →
      (historyReducer s (.set next)).present = next ∧
      (historyReducer s (.set next)).future = [] ∧
      (historyReducer s (.set next)).past.getLast? = some s.present) := by
  refine ⟨?_, ?_, ?_, ?_, ?_⟩
  · intro h
    rw [historyReducer_undo_of_ne_nil s h]
    rfl
  · intro h
    match hf : s.future with
    | [] => exact absurd hf h
    | x :: rest =>
        show (historyReducer (historyReducer s .redo) .undo).present = s.present
        have hredo : historyReducer s .redo = ⟨s.past ++ [s.present], x, rest⟩ := by
          unfold historyReducer
          rw [hf]
        rw [hredo]
        have hne : s.past ++ [s.present] ≠ [] := by simp
        rw [historyReducer_undo_of_ne_nil _ hne]
        simp [List.getLast_append]
  · exact historyReducer_undo_nil s
  · intro h
    unfold historyReducer
    rw [h]
  · intro h
    unfold historyReducer
    simp [if_neg h]

theorem clamp_le_and_ge {α : Type} [LinearOrder α] (n mn mx : α) (h : mn ≤ mx) :
    mn ≤ clamp n mn mx ∧ clamp n mn mx ≤ mx :=
  ⟨le_max_left _ _, max_le h (min_le_left _ _)⟩

/-- A single node's scale bound. -/
theorem scaleOK_of_clamp (n : ℚ) : (0.25 : ℚ) ≤ clamp n 0.25 4 ∧ clamp n 0.25 4 ≤ 4 :=
  clamp_le_and_ge n 0.25 4 (by norm_num)

theorem scalesOK_map {f : EditorNode → EditorNode}
    (hf : ∀ n : EditorNode, (0.25 : ℚ) ≤ n.scale ∧ n.scale ≤ 4 →
      (0.25 : ℚ) ≤ (f n).scale ∧ (f n).scale ≤ 4)
    {ns : List EditorNode} (h : ScalesOK ns) : ScalesOK (ns.map f) := by
  intro n hn
  rcases List.mem_map.1 hn with ⟨m, hm, rfl⟩
  exact hf m (h m hm)

theorem mem_moveLayer_subset {ns : List EditorNode} {nodeId : String} {delta : Int}
    {n : EditorNode} (hn : n ∈ moveLayer ns nodeId delta) : n ∈ ns := by
  unfold moveLayer at hn
  rcases hidx : ns.findIdx? (fun m => m.id = nodeId) with _ | i
  · rw [hidx] at hn; exact hn
  · rw [hidx] at hn
    simp only at hn
    by_cases hd : (clamp ((i : Int) + delta) 0 ((ns.length : Int) - 1)).toNat = i
    · rw [if_pos hd] at hn; exact hn
    · rw [if_neg hd] at hn
      rcases hget : ns.get? i with _ | item
      · rw [hget] at hn; exact hn
      · rw [hget] at hn
        have hilen : i < ns.length := (List.get?_eq_some.1 hget).1
        have hlen1 : 1 ≤ ns.length := by omega
        have hdst : (clamp ((i : Int) + delta) 0 ((ns.length : Int) - 1)).toNat ≤
            (ns.eraseIdx i).length := by
          have h1 : clamp ((i : Int) + delta) 0 ((ns.length : Int) - 1) ≤ (ns.length : Int) - 1 := by
            refine max_le ?_ (min_le_left _ _)
            omega
          have h2 : (ns.eraseIdx i).length = ns.length - 1 := by
            rw [List.length_eraseIdx]
            simp [hilen]
          omega
        rcases (List.mem_insertIdx hdst).1 hn with rfl | hmem
        · exact List.get?_mem hget
        · exact (List.eraseIdx_sublist ns i).subset hmem

/-- Every single editor manipulation step preserves the scale invariant. -/
theorem applyOp_preserves_scalesOK (ns : List EditorNode) (op : EditorOp)
    (h : ScalesOK ns) : ScalesOK (applyOp ns op) := by
  cases op with
  | add id assetId x y profile =>
      intro n hn
      rcases List.mem_append.1 hn with hmem | hmem
      · exact h n hmem
      · rcases List.mem_singleton.1 hmem with rfl
        exact ⟨by norm_num, by norm_num⟩
  | del nodeId =>
      intro n hn
      exact h n (List.mem_of_mem_filter hn)
  | rot nodeId d =>
      refine scalesOK_map (fun n hb => ?_) h
      by_cases hid : n.id = nodeId <;> simp [hid] <;> exact hb
  | scl nodeId f =>
      refine scalesOK_map (fun n hb => ?_) h
      by_cases hid : n.id = nodeId
      · simpa [hid] using scaleOK_of_clamp (orOne n.scale * f)
      · simpa [hid] using hb
  | flip nodeId =>
      refine scalesOK_map (fun n hb => ?_) h
      by_cases hid : n.id = nodeId <;> simp [hid] <;> exact hb
  | lbl nodeId t =>
      refine scalesOK_map (fun n hb => ?_) h
      by_cases hid : n.id = nodeId <;> simp [hid] <;> exact hb
  | lock nodeId =>
      refine scalesOK_map (fun n hb => ?_) h
      by_cases hid : n.id = nodeId <;> simp [hid] <;> exact hb
  | layer nodeId d =>
      intro n hn
      exact h n (mem_moveLayer_subset hn)
  | dup nodeId newId =>
      intro n hn
      show (0.25 : ℚ) ≤ n.scale ∧ n.scale ≤ 4
      simp only [applyOp, duplicateNode] at hn
      rcases hf : ns.find? (fun m => m.id = nodeId) with _ | src
      · rw [hf] at hn; exact h n hn
      · rw [hf] at hn
        rcases List.mem_append.1 hn with hmem | hmem
        · exact h n hmem
        · rcases List.mem_singleton.1 hmem with rfl
          exact h src (List.mem_of_find?_eq_some hf)
  | pinch nodeId s r ratio a =>
      refine scalesOK_map (fun n hb => ?_) h
      by_cases hid : n.id = nodeId
      · simpa [hid] using scaleOK_of_clamp (s * ratio)
      · simpa [hid] using hb
  | tEnd nodeId sx rot =>
      refine scalesOK_map (fun n hb => ?_) h
      by_cases hid : n.id = nodeId
      · simpa [hid] using scaleOK_of_clamp |sx|
      · simpa [hid] using hb
  | clear =>
      intro n hn
      exact absurd hn (List.not_mem_nil n)

/-- C10: in every editor state reachable from the empty stage by the
editor's manipulation operations, every node's scale lies in `[0.25, 4]`;
a freshly added node has scale `1`; and the two scale-changing actions
named by the claim (`scaleNode` and the pinch gesture) always leave the
touched node's scale clamped into `[0.25, 4]`. -/
theorem claim_C10_scale_invariant :
    (∀ ns : List EditorNode, ReachableNodes ns → ScalesOK ns) ∧
    (∀ (nodes : List EditorNode) (id assetId : String) (x y : ℚ) (p : NodeProfile),
      ((addNodeAt nodes id assetId x y p).getLast?).map EditorNode.scale = some 1) ∧
    (∀ (nodes : List EditorNode) (nodeId : String) (factor : ℚ) (n : EditorNode),
      n ∈ scaleNode nodes nodeId factor → n.id = nodeId →
        (0.25 : ℚ) ≤ n.scale ∧ n.scale ≤ 4) ∧
    (∀ (nodes : List EditorNode) (nodeId : String) (s r ratio a : ℚ) (n : EditorNode),
      n ∈ pinchUpdate nodes nodeId s r ratio a → n.id = nodeId →
        (0.25 : ℚ) ≤ n.scale ∧ n.scale ≤ 4) := by
  refine ⟨?_, ?_, ?_, ?_⟩
  · intro ns hr
    induction hr with
    | empty => intro n hn; exact absurd hn (List.not_mem_nil n)
    | step op _ ih => exact applyOp_preserves_scalesOK _ op ih
  · intro nodes id assetId x y p
    unfold addNodeAt
    rw [List.getLast?_concat]
    rfl
  · intro nodes nodeId factor n hn hid
    rcases List.mem_map.1 hn with ⟨m, _, rfl⟩
    by_cases hm : m.id = nodeId
    · simpa [hm] using scaleOK_of_clamp (orOne m.scale * factor)
    · simp only [if_neg hm] at hid ⊢
      exact absurd hid hm
  · intro nodes nodeId s r ratio a n hn hid
    rcases List.mem_map.1 hn with ⟨m, _, rfl⟩
    by_cases hm : m.id = nodeId
    · simpa [hm] using scaleOK_of_clamp (s * ratio)
    · simp only [if_neg hm] at hid ⊢
      exact absurd hid hm

/-- Witness for C10: a concrete one-node reachable state, and the clamped
scale actions evaluated on it. -/
theorem claim_C10_scale_invariant_witness :
    ScalesOK (addNodeAt [] "n1" "a1" 0 0 ⟨"", "", "", "", ""⟩) ∧
    ((addNodeAt [] "n1" "a1" 0 0 ⟨"", "", "", "", ""⟩).getLast?).map EditorNode.scale
      = some 1 ∧
    ((0.25 : ℚ) ≤ (⟨"n1", "asset", "a1", 0, 0, 0, 4, "", false, false,
        ⟨"", "", "", "", ""⟩⟩ : EditorNode).scale) := by
  refine ⟨?_, ?_, ?_⟩
  · exact claim_C10_scale_invariant.1 _
      (ReachableNodes.step (.add "n1" "a1" 0 0 ⟨"", "", "", "", ""⟩) ReachableNodes.empty)
  · exact claim_C10_scale_invariant.2.1 [] "n1" "a1" 0 0 ⟨"", "", "", "", ""⟩
  · have hmem : (⟨"n1", "asset", "a1", 0, 0, 0, 4, "", false, false,
        ⟨"", "", "", "", ""⟩⟩ : EditorNode) ∈
        scaleNode [⟨"n1", "asset", "a1", 0, 0, 0, 1, "", false, false,
          ⟨"", "", "", "", ""⟩⟩] "n1" 10 := by
      simp only [scaleNode, List.map_cons, List.map_nil, List.mem_singleton, if_pos,
        orOne, clamp]
      norm_num
    exact (claim_C10_scale_invariant.2.2.1 _ "n1" 10 _ hmem rfl).1

/-- Witness for C1 at a concrete history over `Nat`. -/
theorem claim_C1_history_reducer_witness :
    ((historyReducer (historyReducer (⟨[1], 0, [2]⟩ : History Nat) .undo) .redo).present = 0) ∧
    ((historyReducer (historyReducer (⟨[1], 0, [2]⟩ : History Nat) .redo) .undo).present = 0) ∧
    (historyReducer (⟨[], 0, [2]⟩ : History Nat) .undo = ⟨[], 0, [2]⟩) ∧
    (historyReducer (⟨[1], 0, []⟩ : History Nat) .redo = ⟨[1], 0, []⟩) ∧
    ((historyReducer (⟨[1], 0, [2]⟩ : History Nat) (.set 7)).present = 7 ∧
      (historyReducer (⟨[1], 0, [2]⟩ : History Nat) (.set 7)).future = [] ∧
      (historyReducer (⟨[1], 0, [2]⟩ : History Nat) (.set 7)).past.getLast? = some 0) := by
  refine ⟨?_, ?_, ?_, ?_, ?_⟩
  · exact (claim_C1_history_reducer (⟨[1], 0, [2]⟩ : History Nat) 7).1 (by decide)
  · exact (claim_C1_history_reducer (⟨[1], 0, [2]⟩ : History Nat) 7).2.1 (by decide)
  · exact (claim_C1_history_reducer (⟨[], 0, [2]⟩ : History Nat) 7).2.2.1 rfl
  · exact (claim_C1_history_reducer (⟨[1], 0, []⟩ : History Nat) 7).2.2.2.1 rfl
  · exact (claim_C1_history_reducer (⟨[1], 0, [2]⟩ : History Nat) 7).2.2.2.2 (by decide)

/-- The fuel parameter of `pngScan` is immaterial once it dominates the
remaining buffer: every iteration advances `offset` by at least 12. -/
theorem pngScan_fuel_stable (b : List Nat) :
    ∀ (fuel fuel' offset : Nat), b.length ≤ offset + 12 * fuel →
      b.length ≤ offset + 12 * fuel' →
      pngScan b fuel offset = pngScan b fuel' offset := by
  intro fuel
  induction fuel with
  | zero =>
      intro fuel' offset h h'
      cases fuel' with
      | zero => rfl
      | succ fuel' =>
          show false = pngScan b (fuel' + 1) offset
          unfold pngScan
          rw [if_neg (by omega)]
  | succ fuel ih =>
      intro fuel' offset h h'
      cases fuel' with
      | zero =>
          show pngScan b (fuel + 1) offset = false
          unfold pngScan
          rw [if_neg (by omega)]
      | succ fuel' =>
          unfold pngScan
          by_cases h1 : offset + 12 ≤ b.length
          · rw [if_pos h1, if_pos h1]
            by_cases h2 : b.length < offset + 8 + readUInt32BE b offset + 4
            · rw [if_pos h2, if_pos h2]
            · rw [if_neg h2, if_neg h2]
              by_cases h3 : chunkTypeAt b offset = typeIHDR ∧ 13 ≤ readUInt32BE b offset ∧
                  (b.getD (offset + 8 + 9) 0 = 4 ∨ b.getD (offset + 8 + 9) 0 = 6)
              · rw [if_pos h3, if_pos h3]
              · rw [if_neg h3, if_neg h3]
                by_cases h4 : chunkTypeAt b offset = typeTRNS
                · rw [if_pos h4, if_pos h4]
                · rw [if_neg h4, if_neg h4]
                  by_cases h5 : chunkTypeAt b offset = typeIEND
                  · rw [if_pos h5, if_pos h5]
                  · rw [if_neg h5, if_neg h5]
                    exact ih fuel' _ (by omega) (by omega)
          · rw [if_neg h1, if_neg h1]

/-- The loop of `detectPngHasAlpha` returns true exactly when some chunk it
visits signals alpha. -/
theorem pngScan_eq_any_scannedChunks (b : List Nat) :
    ∀ (fuel offset : Nat),
      pngScan b fuel offset =
        (scannedChunks b fuel offset).any (chunkSignalsAlpha b) := by
  intro fuel
  induction fuel with
  | zero => intro offset; rfl
  | succ fuel ih =>
      intro offset
      unfold pngScan scannedChunks
      by_cases h1 : offset + 12 ≤ b.length
      · rw [if_pos h1, if_pos h1]
        by_cases h2 : b.length < offset + 8 + readUInt32BE b offset + 4
        · rw [if_pos h2, if_pos h2]; rfl
        · rw [if_neg h2, if_neg h2]
          by_cases h3 : chunkTypeAt b offset = typeIHDR ∧ 13 ≤ readUInt32BE b offset ∧
              (b.getD (offset + 8 + 9) 0 = 4 ∨ b.getD (offset + 8 + 9) 0 = 6)
          · rw [if_pos h3]
            have h5 : ¬ chunkTypeAt b offset = typeIEND := by
              rw [h3.1]
              decide
            rw [if_neg h5]
            have hsig : chunkSignalsAlpha b
                ⟨readUInt32BE b offset, chunkTypeAt b offset, offset + 8⟩ = true := by
              simp only [chunkSignalsAlpha, decide_eq_true_eq]
              exact Or.inl h3
            simp [List.any_cons, hsig]
          · rw [if_neg h3]
            by_cases h4 : chunkTypeAt b offset = typeTRNS
            · rw [if_pos h4]
              have h5 : ¬ chunkTypeAt b offset = typeIEND := by
                rw [h4]
                decide
              rw [if_neg h5]
              simp [chunkSignalsAlpha, h4]
            · rw [if_neg h4]
              by_cases h5 : chunkTypeAt b offset = typeIEND
              · rw [if_pos h5, if_pos h5]
                have hsig : chunkSignalsAlpha b
                    ⟨readUInt32BE b offset, chunkTypeAt b offset, offset + 8⟩ = false := by
                  simp only [chunkSignalsAlpha, decide_eq_false_iff_not]
                  rintro (hA | hB)
                  · exact h3 hA
                  · rw [h5] at hB
                    exact absurd hB (by decide)
                simp [hsig]
              · rw [if_neg h5, if_neg h5]
                simp only [List.any_cons]
                have hsig : chunkSignalsAlpha b
                    ⟨readUInt32BE b offset, chunkTypeAt b offset, offset + 8⟩ = false := by
                  simp only [chunkSignalsAlpha, decide_eq_false_iff_not]
                  rintro (hA | hB)
                  · exact h3 hA
                  · exact h4 hB
                rw [hsig, Bool.false_or]
                exact ih _
      · rw [if_neg h1, if_neg h1]; rfl

/-- C6: upload validation — a file is accepted exactly when its MIME type
is `image/png`, `image/svg+xml` or `image/x-png` and it holds at most
`2*1024*1024` bytes; a rejected file creates no asset record and touches
no storage; an accepted file's metadata stores its content type, and the
alpha flag is computed only for PNG MIME types (absent for SVG). -/
theorem claim_C6_upload_validation (assets : List AssetRec) (blobs : List String)
    (doc : Option Taxonomy) (f : UploadFile) (name category sect fileId aid : String) :
    (multerAccepts f = true ↔
      ((f.mimetype = "image/png" ∨ f.mimetype = "image/svg+xml" ∨
        f.mimetype = "image/x-png") ∧ f.buffer.length ≤ 2 * 1024 * 1024)) ∧
    (multerAccepts f = false →
      adminAssetUploadH assets blobs doc f name category sect fileId aid =
        (assets, blobs, doc, .rejected)) ∧
    (multerAccepts f = true →
      ∃ a : AssetRec,
        adminAssetUploadH assets blobs doc f name category sect fileId aid =
          (assets ++ [a], blobs ++ [fileId],
            upsertTaxonomyCategorySection doc category sect, .createdA a) ∧
        a.metadata.contentType = f.mimetype ∧
        ((f.mimetype = "image/png" ∨ f.mimetype = "image/x-png") →
          a.metadata.hasAlpha = some (detectPngHasAlpha f.buffer)) ∧
        (f.mimetype = "image/svg+xml" → a.metadata.hasAlpha = none)) := by
  refine ⟨?_, ?_, ?_⟩
  · simp only [multerAccepts, allowedMime, maxFileSize, Bool.and_eq_true,
      Bool.or_eq_true, decide_eq_true_eq, or_assoc]
  · intro hrej
    unfold adminAssetUploadH
    rw [if_pos (by simp [hrej])]
  · intro hacc
    refine ⟨⟨aid, if name = "" then f.originalname else name, category, sect, fileId,
      ⟨f.mimetype, if f.mimetype = "image/png" ∨ f.mimetype = "image/x-png" then
        some (detectPngHasAlpha f.buffer) else none⟩⟩, ?_, rfl, ?_, ?_⟩
    · unfold adminAssetUploadH
      rw [if_neg (by simp [hacc])]
    · intro hm
      show (if f.mimetype = "image/png" ∨ f.mimetype = "image/x-png" then
        some (detectPngHasAlpha f.buffer) else none) = some (detectPngHasAlpha f.buffer)
      rw [if_pos hm]
    · intro hm
      show (if f.mimetype = "image/png" ∨ f.mimetype = "image/x-png" then
        some (detectPngHasAlpha f.buffer) else none) = none
      simp [hm]

/-- Witness for C6 at a concrete PNG, a concrete SVG and an oversized
file. -/
theorem claim_C6_upload_validation_witness :
    (multerAccepts ⟨"i.png", "image/png", [1]⟩ = true) ∧
    (adminAssetUploadH [] [] none ⟨"i.gif", "image/gif", [1]⟩
      "n" "c" "s" "file1" "a1" = ([], [], none, .rejected)) ∧
    (∃ a : AssetRec,
      adminAssetUploadH [] [] none ⟨"i.svg", "image/svg+xml", [1]⟩ "n" "c" "s" "file1" "a1" =
        ([a], ["file1"], upsertTaxonomyCategorySection none "c" "s", .createdA a) ∧
      a.metadata.contentType = "image/svg+xml" ∧
      a.metadata.hasAlpha = none) := by
  refine ⟨?_, ?_, ?_⟩
  · exact (claim_C6_upload_validation [] [] none ⟨"i.png", "image/png", [1]⟩
      "n" "c" "s" "file1" "a1").1.2 ⟨Or.inl rfl, by norm_num⟩
  · have hrej : multerAccepts ⟨"i.gif", "image/gif", [1]⟩ = false := by decide
    exact (claim_C6_upload_validation [] [] none ⟨"i.gif", "image/gif", [1]⟩
      "n" "c" "s" "file1" "a1").2.1 hrej
  · rcases (claim_C6_upload_validation [] [] none ⟨"i.svg", "image/svg+xml", [1]⟩
      "n" "c" "s" "file1" "a1").2.2
      ((claim_C6_upload_validation [] [] none ⟨"i.svg", "image/svg+xml", [1]⟩
        "n" "c" "s" "file1" "a1").1.2 ⟨Or.inr (Or.inl rfl), by norm_num⟩) with
      ⟨a, heq, hct, _, hsvg⟩
    exact ⟨a, by simpa using heq, hct, hsvg rfl⟩

/-- C7: deleting an asset removes both the metadata document and the
referenced blob and answers `ok`; deleting an unknown id answers 404 and
changes nothing. -/
theorem claim_C7_delete_asset (assets : List AssetRec) (blobs : List String)
    (id : String) :
    ((∀ a ∈ assets, a.aid ≠ id) →
      deleteAssetH assets blobs id = (assets, blobs, .notFoundA)) ∧
    (∀ a : AssetRec, (assets.map AssetRec.aid).Nodup → blobs.Nodup →
      a ∈ assets → a.aid = id →
      (deleteAssetH assets blobs id).2.2 = .okA ∧
      a ∉ (deleteAssetH assets blobs id).1 ∧
      a.fileId ∉ (deleteAssetH assets blobs id).2.1 ∧
      (∀ b ∈ assets, b ≠ a → b ∈ (deleteAssetH assets blobs id).1) ∧
      (∀ fid ∈ blobs, fid ≠ a.fileId → fid ∈ (deleteAssetH assets blobs id).2.1)) := by
  constructor
  · intro hall
    unfold deleteAssetH
    have hfind : assets.find? (fun a => a.aid = id) = none := by
      rw [List.find?_eq_none]
      intro a ha
      simpa using hall a ha
    rw [hfind]
  · intro a hnodup hblobs ha haid
    have hfind : assets.find? (fun b => b.aid = id) = some a := by
      rcases hq : assets.find? (fun b => b.aid = id) with _ | q
      · exfalso
        rw [List.find?_eq_none] at hq
        exact hq a ha (by simp [haid])
      · have hqmem : q ∈ assets := List.mem_of_find?_eq_some hq
        have hqp : q.aid = id := by simpa using List.find?_some hq
        have hqa : q = a := List.inj_on_of_nodup_map hnodup hqmem ha (by rw [hqp, haid])
        rw [hqa] at hq
        exact hq
    have hred : deleteAssetH assets blobs id =
        (assets.eraseP (fun b => b.aid = id),
          blobs.eraseP (fun fid => fid = a.fileId), .okA) := by
      unfold deleteAssetH
      rw [hfind]
    rw [hred]
    rcases @List.exists_of_eraseP AssetRec (fun b => decide (b.aid = id)) assets a
      ha (by simp [haid]) with ⟨b, l₁, l₂, hl₁, hpb, hsplit, herase⟩
    have hbmem : b ∈ assets := by
      rw [hsplit]
      exact List.mem_append_right _ (List.mem_cons_self _ _)
    have hbaid : b.aid = id := of_decide_eq_true hpb
    have hba : b = a := List.inj_on_of_nodup_map hnodup hbmem ha (by rw [hbaid, haid])
    subst hba
    have hnotl : b ∉ l₁ ∧ b ∉ l₂ := by
      have hmapsplit : assets.map AssetRec.aid =
          l₁.map AssetRec.aid ++ b.aid :: l₂.map AssetRec.aid := by
        rw [hsplit]
        simp
      rw [hmapsplit] at hnodup
      rcases List.nodup_append.1 hnodup with ⟨_, hcons, hdisj⟩
      constructor
      · intro hmem
        exact hdisj (List.mem_map_of_mem _ hmem) (List.mem_cons_self _ _)
      · intro hmem
        exact (List.nodup_cons.1 hcons).1 (List.mem_map_of_mem _ hmem)
    have hbloberase : b.fileId ∉ blobs.eraseP (fun fid => fid = b.fileId) ∧
        ∀ fid ∈ blobs, fid ≠ b.fileId →
          fid ∈ blobs.eraseP (fun fid => fid = b.fileId) := by
      by_cases hfb : b.fileId ∈ blobs
      · rcases @List.exists_of_eraseP String (fun fid => decide (fid = b.fileId)) blobs
          b.fileId hfb (by simp) with ⟨c, m₁, m₂, hm₁, hpcc, hbsplit, hberase⟩
        have hc : c = b.fileId := of_decide_eq_true hpcc
        subst hc
        rw [hberase]
        have hnotm : b.fileId ∉ m₁ ∧ b.fileId ∉ m₂ := by
          rw [hbsplit] at hblobs
          rcases List.nodup_append.1 hblobs with ⟨_, hcons, hdisj⟩
          exact ⟨fun hmem => hdisj hmem (List.mem_cons_self _ _),
            fun hmem => (List.nodup_cons.1 hcons).1 hmem⟩
        constructor
        · intro hmem
          rcases List.mem_append.1 hmem with hmem | hmem
          · exact hnotm.1 hmem
          · exact hnotm.2 hmem
        · intro fid hfid hne
          rw [hbsplit] at hfid
          rcases List.mem_append.1 hfid with hmem | hmem
          · exact List.mem_append_left _ hmem
          · rcases List.mem_cons.1 hmem with rfl | hmem
            · exact absurd rfl hne
            · exact List.mem_append_right _ hmem
      · have hnoop : blobs.eraseP (fun fid => fid = b.fileId) = blobs :=
          List.eraseP_of_forall_not (by
            intro x hx
            simp only [decide_eq_true_eq]
            intro hxe
            rw [hxe] at hx
            exact hfb hx)
        rw [hnoop]
        exact ⟨hfb, fun fid hfid _ => hfid⟩
    refine ⟨rfl, ?_, hbloberase.1, ?_, hbloberase.2⟩
    · show b ∉ assets.eraseP (fun c => c.aid = id)
      rw [herase]
      intro hmem
      rcases List.mem_append.1 hmem with hmem | hmem
      · exact hnotl.1 hmem
      · exact hnotl.2 hmem
    · intro c hc hne
      show c ∈ assets.eraseP (fun d => d.aid = id)
      rw [herase]
      rw [hsplit] at hc
      rcases List.mem_append.1 hc with hmem | hmem
      · exact List.mem_append_left _ hmem
      · rcases List.mem_cons.1 hmem with rfl | hmem
        · exact absurd rfl hne
        · exact List.mem_append_right _ hmem

/-- Witness for C7: one stored asset and its blob, deleted; then a miss. -/
theorem claim_C7_delete_asset_witness :
    ((⟨"a1", "Kick", "Drums", "Mics", "file1", ⟨"image/png", some true⟩⟩ : AssetRec) ∉
      (deleteAssetH [⟨"a1", "Kick", "Drums", "Mics", "file1", ⟨"image/png", some true⟩⟩]
        ["file1"] "a1").1) ∧
    ("file1" ∉
      (deleteAssetH [⟨"a1", "Kick", "Drums", "Mics", "file1", ⟨"image/png", some true⟩⟩]
        ["file1"] "a1").2.1) ∧
    ((deleteAssetH [⟨"a1", "Kick", "Drums", "Mics", "file1", ⟨"image/png", some true⟩⟩]
        ["file1"] "a1").2.2 = DeleteResp.okA) ∧
    (deleteAssetH [⟨"a1", "Kick", "Drums", "Mics", "file1", ⟨"image/png", some true⟩⟩]
        ["file1"] "zz" =
      ([⟨"a1", "Kick", "Drums", "Mics", "file1", ⟨"image/png", some true⟩⟩], ["file1"],
        DeleteResp.notFoundA)) := by
  have h := (claim_C7_delete_asset
    [⟨"a1", "Kick", "Drums", "Mics", "file1", ⟨"image/png", some true⟩⟩] ["file1"] "a1").2
    ⟨"a1", "Kick", "Drums", "Mics", "file1", ⟨"image/png", some true⟩⟩
    (by decide) (by decide) (List.mem_cons_self _ _) rfl
  refine ⟨h.2.1, h.2.2.1, h.1, ?_⟩
  exact (claim_C7_delete_asset
    [⟨"a1", "Kick", "Drums", "Mics", "file1", ⟨"image/png", some true⟩⟩] ["file1"] "zz").1
    (by decide)

theorem addSection_empty (c : TaxonomyCategory) : addSection c "" = c := by
  unfold addSection
  rw [if_pos rfl]

theorem upsertInCats_append_of_not_mem (l : List TaxonomyCategory) (cat : String)
    (h : cat ∉ l.map TaxonomyCategory.name) :
    upsertInCats l cat "" = l ++ [⟨cat, []⟩] := by
  induction l with
  | nil =>
      unfold upsertInCats
      rw [addSection_empty]
      rfl
  | cons c rest ih =>
      unfold upsertInCats
      have hne : ¬ c.name = cat := by
        intro he
        exact h (by rw [List.map_cons, ← he]; exact List.mem_cons_self _ _)
      rw [if_neg hne, ih (fun hm => h (List.mem_cons_of_mem _ hm))]
      rfl

theorem upsertInCats_id_of_mem (l : List TaxonomyCategory) (cat : String)
    (h : cat ∈ l.map TaxonomyCategory.name) :
    upsertInCats l cat "" = l := by
  induction l with
  | nil => exact absurd h (List.not_mem_nil cat)
  | cons c rest ih =>
      unfold upsertInCats
      by_cases hc : c.name = cat
      · rw [if_pos hc, addSection_empty]
      · rw [if_neg hc]
        have hmem : cat ∈ rest.map TaxonomyCategory.name := by
          rcases List.mem_cons.1 h with he | hm
          · exact absurd he.symm hc
          · exact hm
        rw [ih hmem]

theorem upsertTaxonomy_some_cat (t : Taxonomy) (a : String)
    (ha : normalizeName a ≠ "") :
    upsertTaxonomyCategorySection (some t) a "" =
      some ⟨upsertInCats t.categories (normalizeName a) ""⟩ := by
  simp only [upsertTaxonomyCategorySection]
  rw [if_neg (by simp [ha]), if_neg ha]
  rfl

/-- C8, counterexample to the claim as stated: `"A"` and `"A "` differ
only in (trailing) whitespace, yet upserting both produces a single
taxonomy entry — `normalizeName` trims before the string-equality match,
so leading/trailing-whitespace variants collapse instead of diverging. -/
theorem claim_C8_counterexample :
    ("A" : String) ≠ "A " ∧
    upsertTaxonomyCategorySection
        (upsertTaxonomyCategorySection (some ⟨[]⟩) "A" "") "A " "" =
      some ⟨[⟨"A", []⟩]⟩ := by
  constructor
  · decide
  · decide

/-- C8 (amended): taxonomy names are matched by string equality after
trimming leading/trailing whitespace and nothing more: two fresh names
whose trimmed forms differ — in particular names differing only in letter
case, or only in interior whitespace — produce two distinct entries, while
names whose trimmed forms coincide (differing only in leading/trailing
whitespace) collapse into one. -/
theorem claim_C8_trim_equality_matching (t : Taxonomy) (a b : String)
    (ha : normalizeName a ≠ "") (hb : normalizeName b ≠ "")
    (hna : normalizeName a ∉ t.categories.map TaxonomyCategory.name)
    (hnb : normalizeName b ∉ t.categories.map TaxonomyCategory.name) :
    (normalizeName a ≠ normalizeName b →
      upsertTaxonomyCategorySection (upsertTaxonomyCategorySection (some t) a "") b "" =
        some ⟨t.categories ++ [⟨normalizeName a, []⟩, ⟨normalizeName b, []⟩]⟩) ∧
    (normalizeName a = normalizeName b →
      upsertTaxonomyCategorySection (upsertTaxonomyCategorySection (some t) a "") b "" =
        upsertTaxonomyCategorySection (some t) a "") := by
  have hd1 : upsertTaxonomyCategorySection (some t) a "" =
      some ⟨t.categories ++ [⟨normalizeName a, []⟩]⟩ := by
    rw [upsertTaxonomy_some_cat t a ha, upsertInCats_append_of_not_mem _ _ hna]
  constructor
  · intro hab
    have hnotmem : normalizeName b ∉
        (t.categories ++ [(⟨normalizeName a, []⟩ : TaxonomyCategory)]).map
          TaxonomyCategory.name := by
      simp only [List.map_append, List.map_cons, List.map_nil]
      intro hmem
      rcases List.mem_append.1 hmem with hm | hm
      · exact hnb hm
      · rcases List.mem_singleton.1 hm with he
        exact hab he.symm
    rw [hd1, upsertTaxonomy_some_cat _ b hb,
      upsertInCats_append_of_not_mem _ _ hnotmem]
    simp
  · intro hab
    have hmem : normalizeName b ∈
        (t.categories ++ [(⟨normalizeName a, []⟩ : TaxonomyCategory)]).map
          TaxonomyCategory.name := by
      simp only [List.map_append, List.map_cons, List.map_nil]
      exact List.mem_append_right _ (by rw [← hab]; exact List.mem_cons_self _ _)
    rw [hd1, upsertTaxonomy_some_cat _ b hb, upsertInCats_id_of_mem _ _ hmem]

/-- Witness for C8 (amended): a case-variant pair diverges; a
trailing-whitespace pair collapses. -/
theorem claim_C8_trim_equality_matching_witness :
    (upsertTaxonomyCategorySection
        (upsertTaxonomyCategorySection (some ⟨[]⟩) "Drums" "") "drums" "" =
      some ⟨[⟨"Drums", []⟩, ⟨"drums", []⟩]⟩) ∧
    (upsertTaxonomyCategorySection
        (upsertTaxonomyCategorySection (some ⟨[]⟩) "A" "") "A " "" =
      upsertTaxonomyCategorySection (some ⟨[]⟩) "A" "") := by
  constructor
  · exact ((claim_C8_trim_equality_matching ⟨[]⟩ "Drums" "drums"
      (by decide) (by decide) (by decide) (by decide)).1 (by decide)).trans (by decide)
  · exact (claim_C8_trim_equality_matching ⟨[]⟩ "A" "A "
      (by decide) (by decide) (by decide) (by decide)).2 (by decide)

/-- C5, counterexample to the claim as stated: `maskedIhdrBuffer` starts
with the PNG signature but contains no `IHDR` (nor `tRNS`) chunk — its
only chunk's type bytes are `C9 48 44 52` — so the claimed
characterization says `false`; yet the program decodes the type through
the high-bit-masking `'ascii'` conversion, sees `IHDR` with length 13 and
colour type 6, and returns `true`. -/
theorem claim_C5_counterexample :
    detectPngHasAlpha maskedIhdrBuffer = true ∧
    pngAlphaSpecStrict maskedIhdrBuffer = false := by
  constructor
  · decide
  · decide

/-- C5 (amended): `detectPngHasAlpha` is total on byte buffers (it is a
Lean function, and every buffer read it performs is guarded), and it
returns `true` exactly when the buffer has at least 24 bytes, starts with
the 8-byte PNG signature, and the sequential chunk scan — stopping at
`IEND` or in front of a chunk that would run past the buffer's end —
visits an `IHDR` chunk of length at least 13 with colour type byte 4 or
6, or a `tRNS` chunk; on every other buffer it returns `false`.  Chunk
types are matched on the 7-bit `'ascii'` decoding of the four type bytes
(each byte's high bit unset), so byte values differing from
`IHDR`/`tRNS`/`IEND` only in a high bit count as those chunks. -/
theorem claim_C5_png_alpha_sniff (b : List Nat) :
    detectPngHasAlpha b = pngAlphaSpec b := by
  unfold detectPngHasAlpha pngAlphaSpec
  by_cases h1 : b.length < 24
  · rw [if_pos h1, decide_eq_false (by omega : ¬ 24 ≤ b.length), Bool.false_and,
      Bool.false_and]
  · rw [if_neg h1, decide_eq_true (by omega : 24 ≤ b.length), Bool.true_and]
    by_cases h2 : hasPngSignature b = true
    · rw [if_neg (by simp [h2]), h2, Bool.true_and]
      exact pngScan_eq_any_scannedChunks b b.length 8
    · have h2' : hasPngSignature b = false := by simpa using h2
      rw [if_pos (by simp [h2']), h2', Bool.false_and]

theorem addSection_name (c : TaxonomyCategory) (s : String) :
    (addSection c s).name = c.name := by
  unfold addSection
  split
  · rfl
  · split <;> rfl

theorem addSection_sections_nodup (c : TaxonomyCategory) (s : String)
    (h : c.sections.Nodup) : (addSection c s).sections.Nodup := by
  unfold addSection
  by_cases h1 : s = ""
  · rw [if_pos h1]; exact h
  · rw [if_neg h1]
    by_cases h2 : s ∈ c.sections
    · rw [if_pos h2]; exact h
    · rw [if_neg h2]
      refine List.Nodup.append h (List.nodup_singleton s) ?_
      intro x hx hxs
      rw [List.mem_singleton] at hxs
      subst hxs
      exact h2 hx

theorem addSection_mem (c : TaxonomyCategory) (s x : String)
    (h : x ∈ c.sections) : x ∈ (addSection c s).sections := by
  unfold addSection
  by_cases h1 : s = ""
  · rw [if_pos h1]; exact h
  · rw [if_neg h1]
    by_cases h2 : s ∈ c.sections
    · rw [if_pos h2]; exact h
    · rw [if_neg h2]
      exact List.mem_append_left _ h

theorem upsertInCats_map_name (l : List TaxonomyCategory) (cat sec : String) :
    (upsertInCats l cat sec).map TaxonomyCategory.name =
      if cat ∈ l.map TaxonomyCategory.name then l.map TaxonomyCategory.name
      else l.map TaxonomyCategory.name ++ [cat] := by
  induction l with
  | nil =>
      simp [upsertInCats, addSection_name]
  | cons c rest ih =>
      unfold upsertInCats
      by_cases h : c.name = cat
      · rw [if_pos h]
        have : cat ∈ (c :: rest).map TaxonomyCategory.name := by
          rw [List.map_cons, h.symm]
          exact List.mem_cons_self _ _
        rw [if_pos this]
        simp [addSection_name, h]
      · rw [if_neg h]
        by_cases hmem : cat ∈ rest.map TaxonomyCategory.name
        · have hm : cat ∈ (c :: rest).map TaxonomyCategory.name :=
            List.mem_cons_of_mem _ hmem
          rw [if_pos hm]
          simp only [List.map_cons, ih, if_pos hmem]
        · have hm : ¬ cat ∈ (c :: rest).map TaxonomyCategory.name := by
            rw [List.map_cons, List.mem_cons]
            rintro (h' | h')
            · exact h h'.symm
            · exact hmem h'
          rw [if_neg hm]
          simp only [List.map_cons, ih, if_neg hmem, List.cons_append]

theorem upsertInCats_names_nodup (l : List TaxonomyCategory) (cat sec : String)
    (h : (l.map TaxonomyCategory.name).Nodup) :
    ((upsertInCats l cat sec).map TaxonomyCategory.name).Nodup := by
  rw [upsertInCats_map_name]
  by_cases hmem : cat ∈ l.map TaxonomyCategory.name
  · rw [if_pos hmem]; exact h
  · rw [if_neg hmem]
    refine List.Nodup.append h (List.nodup_singleton cat) ?_
    intro x hx hxs
    rw [List.mem_singleton] at hxs
    subst hxs
    exact hmem hx

theorem upsertInCats_sections_nodup (l : List TaxonomyCategory) (cat sec : String)
    (h : ∀ c ∈ l, c.sections.Nodup) :
    ∀ c' ∈ upsertInCats l cat sec, c'.sections.Nodup := by
  induction l with
  | nil =>
      intro c' hc'
      unfold upsertInCats at hc'
      rcases List.mem_singleton.1 hc' with rfl
      exact addSection_sections_nodup _ _ List.nodup_nil
  | cons c rest ih =>
      intro c' hc'
      unfold upsertInCats at hc'
      by_cases hn : c.name = cat
      · rw [if_pos hn] at hc'
        rcases List.mem_cons.1 hc' with rfl | hmem
        · exact addSection_sections_nodup _ _ (h c (List.mem_cons_self _ _))
        · exact h c' (List.mem_cons_of_mem _ hmem)
      · rw [if_neg hn] at hc'
        rcases List.mem_cons.1 hc' with rfl | hmem
        · exact h c' (List.mem_cons_self _ _)
        · exact ih (fun x hx => h x (List.mem_cons_of_mem _ hx)) c' hmem

theorem upsertInCats_grows (l : List TaxonomyCategory) (cat sec : String) :
    ∀ c ∈ l, ∃ c' ∈ upsertInCats l cat sec, c'.name = c.name ∧
      ∀ s ∈ c.sections, s ∈ c'.sections := by
  induction l with
  | nil => intro c hc; exact absurd hc (List.not_mem_nil c)
  | cons c0 rest ih =>
      intro c hc
      unfold upsertInCats
      by_cases hn : c0.name = cat
      · rw [if_pos hn]
        rcases List.mem_cons.1 hc with rfl | hmem
        · exact ⟨addSection c sec, List.mem_cons_self _ _, addSection_name _ _,
            fun s hs => addSection_mem _ _ _ hs⟩
        · exact ⟨c, List.mem_cons_of_mem _ hmem, rfl, fun s hs => hs⟩
      · rw [if_neg hn]
        rcases List.mem_cons.1 hc with rfl | hmem
        · exact ⟨c, List.mem_cons_self _ _, rfl, fun s hs => hs⟩
        · rcases ih c hmem with ⟨c', hc', hname, hsec⟩
          exact ⟨c', List.mem_cons_of_mem _ hc', hname, hsec⟩

theorem taxonomyGrows_refl (t : Taxonomy) : TaxonomyGrows t t :=
  fun c hc => ⟨c, hc, rfl, fun _ hs => hs⟩

theorem taxonomyWF_upsertInCats {t : Taxonomy} (cat sec : String)
    (h : TaxonomyWF t) : TaxonomyWF ⟨upsertInCats t.categories cat sec⟩ :=
  ⟨upsertInCats_names_nodup _ cat sec h.1,
   upsertInCats_sections_nodup _ cat sec h.2⟩

theorem upsertTaxonomy_TaxStepOK (categoryRaw sectionRaw : String) :
    TaxStepOK (fun doc => upsertTaxonomyCategorySection doc categoryRaw sectionRaw) := by
  intro doc t' hWF hEq
  cases doc with
  | none =>
      simp only [upsertTaxonomyCategorySection] at hEq
      by_cases h0 : normalizeName categoryRaw = "" ∧ normalizeName sectionRaw = ""
      · rw [if_pos h0] at hEq
        cases hEq
      · rw [if_neg h0] at hEq
        injection hEq with hEq
        subst hEq
        refine ⟨?_, fun t ht => by cases ht⟩
        by_cases hc : normalizeName categoryRaw = ""
        · rw [if_pos hc]
          exact ⟨List.nodup_nil, fun c hc2 => absurd hc2 (List.not_mem_nil c)⟩
        · rw [if_neg hc]
          refine ⟨List.nodup_singleton _, ?_⟩
          intro c hc2
          rcases List.mem_singleton.1 hc2 with rfl
          by_cases hs : normalizeName sectionRaw = ""
          · rw [if_pos hs]
            exact List.nodup_nil
          · rw [if_neg hs]
            exact List.nodup_singleton _
  | some t =>
      simp only [upsertTaxonomyCategorySection] at hEq
      by_cases h0 : normalizeName categoryRaw = "" ∧ normalizeName sectionRaw = ""
      · rw [if_pos h0] at hEq
        injection hEq with hEq
        subst hEq
        exact ⟨hWF t rfl, fun t0 ht0 => by cases ht0; exact taxonomyGrows_refl _⟩
      · rw [if_neg h0] at hEq
        by_cases hc : normalizeName categoryRaw = ""
        · rw [if_pos hc] at hEq
          injection hEq with hEq
          subst hEq
          exact ⟨hWF t rfl, fun t0 ht0 => by cases ht0; exact taxonomyGrows_refl _⟩
        · rw [if_neg hc] at hEq
          injection hEq with hEq
          subst hEq
          refine ⟨taxonomyWF_upsertInCats _ _ (hWF t rfl), ?_⟩
          intro t0 ht0
          cases ht0
          exact upsertInCats_grows _ _ _

theorem createCategoryH_TaxStepOK (nameRaw : String) :
    TaxStepOK (fun doc => (createCategoryH doc nameRaw).1) := by
  intro doc t' hWF hEq
  cases doc with
  | none =>
      simp only [createCategoryH] at hEq
      by_cases h0 : normalizeName nameRaw = ""
      · rw [if_pos h0] at hEq
        cases hEq
      · rw [if_neg h0] at hEq
        injection hEq with hEq
        subst hEq
        refine ⟨⟨List.nodup_singleton _, ?_⟩, fun t ht => by cases ht⟩
        intro c hc2
        rcases List.mem_singleton.1 hc2 with rfl
        exact List.nodup_nil
  | some t =>
      simp only [createCategoryH] at hEq
      by_cases h0 : normalizeName nameRaw = ""
      · rw [if_pos h0] at hEq
        injection hEq with hEq
        subst hEq
        exact ⟨hWF t rfl, fun t0 ht0 => by cases ht0; exact taxonomyGrows_refl _⟩
      · rw [if_neg h0] at hEq
        by_cases hany : (t.categories.any fun c => c.name = normalizeName nameRaw) = true
        · rw [if_pos hany] at hEq
          injection hEq with hEq
          subst hEq
          exact ⟨hWF t rfl, fun t0 ht0 => by cases ht0; exact taxonomyGrows_refl _⟩
        · rw [if_neg hany] at hEq
          injection hEq with hEq
          subst hEq
          have hnotmem : normalizeName nameRaw ∉ t.categories.map TaxonomyCategory.name := by
            intro hmem
            rcases List.mem_map.1 hmem with ⟨c, hc, hname⟩
            exact hany (List.any_eq_true.2 ⟨c, hc, by simp [hname]⟩)
          have hWFt := hWF t rfl
          refine ⟨⟨?_, ?_⟩, ?_⟩
          · rw [List.map_append]
            refine List.Nodup.append hWFt.1 (List.nodup_singleton _) ?_
            intro x hx hxs
            rcases List.mem_singleton.1 hxs with rfl
            exact hnotmem hx
          · intro c hc
            rcases List.mem_append.1 hc with hmem | hmem
            · exact hWFt.2 c hmem
            · rcases List.mem_singleton.1 hmem with rfl
              exact List.nodup_nil
          · intro t0 ht0
            cases ht0
            exact fun c hc => ⟨c, List.mem_append_left _ hc, rfl, fun _ hs => hs⟩

theorem createSectionH_TaxStepOK (categoryRaw nameRaw : String) :
    TaxStepOK (fun doc => (createSectionH doc categoryRaw nameRaw).1) := by
  intro doc t' hWF hEq
  cases doc with
  | none =>
      simp only [createSectionH] at hEq
      by_cases h0 : normalizeName categoryRaw = ""
      · rw [if_pos h0] at hEq
        cases hEq
      · rw [if_neg h0] at hEq
        by_cases h1 : normalizeName nameRaw = ""
        · rw [if_pos h1] at hEq
          cases hEq
        · rw [if_neg h1] at hEq
          injection hEq with hEq
          subst hEq
          refine ⟨⟨List.nodup_singleton _, ?_⟩, fun t ht => by cases ht⟩
          intro c hc2
          rcases List.mem_singleton.1 hc2 with rfl
          exact List.nodup_singleton _
  | some t =>
      simp only [createSectionH] at hEq
      by_cases h0 : normalizeName categoryRaw = ""
      · rw [if_pos h0] at hEq
        injection hEq with hEq
        subst hEq
        exact ⟨hWF t rfl, fun t0 ht0 => by cases ht0; exact taxonomyGrows_refl _⟩
      · rw [if_neg h0] at hEq
        by_cases h1 : normalizeName nameRaw = ""
        · rw [if_pos h1] at hEq
          injection hEq with hEq
          subst hEq
          exact ⟨hWF t rfl, fun t0 ht0 => by cases ht0; exact taxonomyGrows_refl _⟩
        · rw [if_neg h1] at hEq
          injection hEq with hEq
          subst hEq
          refine ⟨taxonomyWF_upsertInCats _ _ (hWF t rfl), ?_⟩
          intro t0 ht0
          cases ht0
          exact upsertInCats_grows _ _ _

theorem updateFirst_eq_none_iff (db : List Plot) (pid uid : String)
    (st : List StageNodeRec) (nm : String) :
    updateFirst db pid uid st nm = none ↔
      ∀ p ∈ db, ¬(p.pid = pid ∧ p.userId = uid) := by
  induction db with
  | nil => simp [updateFirst]
  | cons p rest ih =>
      unfold updateFirst
      by_cases h : p.pid = pid ∧ p.userId = uid
      · rw [if_pos h]
        simp only [Option.some_ne_none]  -- placeholder adjusted below
        constructor
        · intro hfalse
          exact absurd hfalse (by simp)
        · intro hall
          exact absurd h (hall p (List.mem_cons_self _ _))
      · rw [if_neg h]
        constructor
        · intro hnone q hq
          rcases List.mem_cons.1 hq with rfl | hmem
          · exact h
          · exact (ih.1 (by
              rcases hopt : updateFirst rest pid uid st nm with _ | db'
              · rfl
              · rw [hopt] at hnone
                simp at hnone)) q hmem
        · intro hall
          have : updateFirst rest pid uid st nm = none :=
            ih.2 (fun q hq => hall q (List.mem_cons_of_mem _ hq))
          rw [this]
          rfl

theorem updateFirst_some_spec (pid uid : String) (st : List StageNodeRec) (nm : String) :
    ∀ (db db' : List Plot), updateFirst db pid uid st nm = some db' →
      ∃ pre p post, db = pre ++ p :: post ∧
        (∀ q ∈ pre, ¬(q.pid = pid ∧ q.userId = uid)) ∧
        p.pid = pid ∧ p.userId = uid ∧
        db' = pre ++ { p with state := st, name := nm } :: post := by
  intro db
  induction db with
  | nil => intro db' h; cases h
  | cons p rest ih =>
      intro db' h
      unfold updateFirst at h
      by_cases hp : p.pid = pid ∧ p.userId = uid
      · rw [if_pos hp] at h
        injection h with h
        exact ⟨[], p, rest, rfl, fun q hq => absurd hq (List.not_mem_nil q),
          hp.1, hp.2, by rw [← h]; rfl⟩
      · rw [if_neg hp] at h
        rcases hopt : updateFirst rest pid uid st nm with _ | rest'
        · rw [hopt] at h; cases h
        · rw [hopt] at h
          injection h with h
          rcases ih rest' hopt with ⟨pre, q, post, hsplit, hpre, hq1, hq2, hrest'⟩
          refine ⟨p :: pre, q, post, by rw [hsplit]; rfl, ?_, hq1, hq2, ?_⟩
          · intro r hr
            rcases List.mem_cons.1 hr with rfl | hmem
            · exact hp
            · exact hpre r hmem
          · rw [← h, hrest']
            rfl

theorem updateFirst_preserves_ids_users_inputs (pid uid : String)
    (st : List StageNodeRec) (nm : String) :
    ∀ (db db' : List Plot), updateFirst db pid uid st nm = some db' →
      db'.map (fun p => (p.pid, p.userId, p.inputs)) =
        db.map (fun p => (p.pid, p.userId, p.inputs)) := by
  intro db
  induction db with
  | nil => intro db' h; cases h
  | cons p rest ih =>
      intro db' h
      unfold updateFirst at h
      by_cases hp : p.pid = pid ∧ p.userId = uid
      · rw [if_pos hp] at h
        injection h with h
        rw [← h]
        rfl
      · rw [if_neg hp] at h
        rcases hopt : updateFirst rest pid uid st nm with _ | rest'
        · rw [hopt] at h; cases h
        · rw [hopt] at h
          injection h with h
          rw [← h, List.map_cons, List.map_cons, ih rest' hopt]

theorem isValidObjectId_ne_empty {s : String} (h : isValidObjectId s = true) :
    s ≠ "" := by
  intro he
  subst he
  simp [isValidObjectId] at h

theorem savePlotH_update_eq (db : List Plot) (uid : String) (st : List StageNodeRec)
    (nameRaw plotIdRaw freshId : String) (db' : List Plot)
    (hne : normalizeName plotIdRaw ≠ "")
    (hvalid : isValidObjectId (normalizeName plotIdRaw) = true)
    (hupd : updateFirst db (normalizeName plotIdRaw) uid st (normalizeName nameRaw) =
      some db') :
    savePlotH db uid st nameRaw plotIdRaw freshId =
      (db', .updated (normalizeName plotIdRaw)) := by
  unfold savePlotH
  rw [if_pos hne, if_neg (by simp [hvalid]), hupd]

theorem savePlotH_notFound (db : List Plot) (uid : String) (st : List StageNodeRec)
    (nameRaw plotIdRaw freshId : String)
    (hne : normalizeName plotIdRaw ≠ "")
    (hvalid : isValidObjectId (normalizeName plotIdRaw) = true)
    (hall : ∀ p ∈ db, ¬(p.pid = normalizeName plotIdRaw ∧ p.userId = uid)) :
    savePlotH db uid st nameRaw plotIdRaw freshId = (db, .notFound) := by
  unfold savePlotH
  rw [if_pos hne, if_neg (by simp [hvalid]),
    (updateFirst_eq_none_iff _ _ _ _ _).2 hall]

theorem savePlotH_create (db : List Plot) (uid : String) (st : List StageNodeRec)
    (nameRaw plotIdRaw freshId : String)
    (hz : normalizeName plotIdRaw = "") :
    savePlotH db uid st nameRaw plotIdRaw freshId =
      (db ++ [⟨freshId, uid, normalizeName nameRaw, st, []⟩], .created freshId) := by
  unfold savePlotH
  rw [if_neg (by simp [hz])]

/-- With unique plot ids, a plot owned by another user blocks every query
that filters on both the id and the requesting user. -/
theorem no_match_of_other_owner (db : List Plot) (uid id : String) (p : Plot)
    (hnodup : (db.map Plot.pid).Nodup) (hp : p ∈ db) (hpid : p.pid = id)
    (huser : p.userId ≠ uid) :
    ∀ q ∈ db, ¬(q.pid = id ∧ q.userId = uid) := by
  rintro q hq ⟨hq1, hq2⟩
  have : q = p := List.inj_on_of_nodup_map hnodup hq hp (by rw [hq1, hpid])
  subst this
  exact huser hq2

/-- C2, counterexample to the claim as stated: an authenticated save that
carries a (well-formed) plot id for which no plot exists neither creates
nor overwrites anything — the store stays empty and the handler answers
404 `Plot not found` instead of upserting. -/
theorem claim_C2_counterexample :
    (savePlotH [] "u1" [] "n" "aaaaaaaaaaaaaaaaaaaaaaaa" "f1").2 = SaveResp.notFound ∧
    (savePlotH [] "u1" [] "n" "aaaaaaaaaaaaaaaaaaaaaaaa" "f1").1 = [] ∧
    ¬ ∃ p ∈ (savePlotH [] "u1" [] "n" "aaaaaaaaaaaaaaaaaaaaaaaa" "f1").1,
        p.pid = "aaaaaaaaaaaaaaaaaaaaaaaa" := by
  refine ⟨by decide, by decide, ?_⟩
  rintro ⟨p, hp, -⟩
  have : (savePlotH [] "u1" [] "n" "aaaaaaaaaaaaaaaaaaaaaaaa" "f1").1 = [] := by decide
  rw [this] at hp
  exact absurd hp (List.not_mem_nil p)

/-- C2 (amended): a save carrying a non-empty plot id never creates a
plot: it overwrites the state and name of the first plot matching the id
and the requester (leaving every other plot, and the matched plot's other
fields, untouched — last write wins, no merge), and answers 404 when no
plot with that id is owned by the requester; a save without a plot id
creates a new plot owned by the requester with the given name and state. -/
theorem claim_C2_save_semantics (db : List Plot) (uid : String)
    (st : List StageNodeRec) (nameRaw plotIdRaw freshId : String) :
    (normalizeName plotIdRaw ≠ "" → isValidObjectId (normalizeName plotIdRaw) = true →
      (∀ db', updateFirst db (normalizeName plotIdRaw) uid st (normalizeName nameRaw) =
          some db' →
        savePlotH db uid st nameRaw plotIdRaw freshId =
          (db', .updated (normalizeName plotIdRaw)) ∧
        ∃ pre p post, db = pre ++ p :: post ∧
          p.pid = normalizeName plotIdRaw ∧ p.userId = uid ∧
          db' = pre ++ { p with state := st, name := normalizeName nameRaw } :: post) ∧
      ((∀ p ∈ db, ¬(p.pid = normalizeName plotIdRaw ∧ p.userId = uid)) →
        savePlotH db uid st nameRaw plotIdRaw freshId = (db, .notFound))) ∧
    (normalizeName plotIdRaw = "" →
      savePlotH db uid st nameRaw plotIdRaw freshId =
        (db ++ [⟨freshId, uid, normalizeName nameRaw, st, []⟩], .created freshId)) := by
  constructor
  · intro hne hvalid
    constructor
    · intro db' hupd
      refine ⟨savePlotH_update_eq db uid st nameRaw plotIdRaw freshId db' hne hvalid hupd, ?_⟩
      rcases updateFirst_some_spec _ _ _ _ _ _ hupd with
        ⟨pre, p, post, hsplit, _, hp1, hp2, hdb'⟩
      exact ⟨pre, p, post, hsplit, hp1, hp2, hdb'⟩
    · intro hall
      exact savePlotH_notFound db uid st nameRaw plotIdRaw freshId hne hvalid hall
  · intro hz
    exact savePlotH_create db uid st nameRaw plotIdRaw freshId hz

/-- Witness for C2 (amended) at concrete stores. -/
theorem claim_C2_save_semantics_witness :
    (savePlotH [⟨"aaaaaaaaaaaaaaaaaaaaaaaa", "u1", "old", [], []⟩] "u1" []
        "new" "aaaaaaaaaaaaaaaaaaaaaaaa" "f1" =
      ([⟨"aaaaaaaaaaaaaaaaaaaaaaaa", "u1", "new", [], []⟩],
        .updated "aaaaaaaaaaaaaaaaaaaaaaaa")) ∧
    (savePlotH [] "u1" [] "n" "aaaaaaaaaaaaaaaaaaaaaaaa" "f1" = ([], .notFound)) ∧
    (savePlotH [] "u1" [] "n" "" "f1" = ([⟨"f1", "u1", "n", [], []⟩], .created "f1")) := by
  refine ⟨?_, ?_, ?_⟩
  · exact ((claim_C2_save_semantics [⟨"aaaaaaaaaaaaaaaaaaaaaaaa", "u1", "old", [], []⟩]
      "u1" [] "new" "aaaaaaaaaaaaaaaaaaaaaaaa" "f1").1 (by decide) (by decide)).1
      [⟨"aaaaaaaaaaaaaaaaaaaaaaaa", "u1", "new", [], []⟩] (by decide) |>.1
  · exact ((claim_C2_save_semantics [] "u1" [] "n" "aaaaaaaaaaaaaaaaaaaaaaaa" "f1").1
      (by decide) (by decide)).2 (fun p hp => absurd hp (List.not_mem_nil p))
  · exact (claim_C2_save_semantics [] "u1" [] "n" "" "f1").2 (by decide)

/-- C4: plot ownership is a query-time `userId` filter — a plot whose id
matches but whose owner differs yields 404 for both the read and the
update path, and the listing returns exactly the requester's plots. -/
theorem claim_C4_ownership_filter (db : List Plot) (uid : String) :
    (∀ q, q ∈ listPlotsH db uid ↔ q ∈ db ∧ q.userId = uid) ∧
    (∀ id p, (db.map Plot.pid).Nodup → isValidObjectId id = true →
      p ∈ db → p.pid = id → p.userId ≠ uid →
      getPlotH db uid id = .notFound) ∧
    (∀ plotIdRaw p (st : List StageNodeRec) (nameRaw freshId : String),
      (db.map Plot.pid).Nodup → isValidObjectId (normalizeName plotIdRaw) = true →
      p ∈ db → p.pid = normalizeName plotIdRaw → p.userId ≠ uid →
      savePlotH db uid st nameRaw plotIdRaw freshId = (db, .notFound)) := by
  refine ⟨?_, ?_, ?_⟩
  · intro q
    simp [listPlotsH, List.mem_filter]
  · intro id p hnodup hvalid hp hpid huser
    unfold getPlotH
    rw [if_neg (by simp [hvalid])]
    have : db.find? (fun q => q.pid = id ∧ q.userId = uid) = none := by
      rw [List.find?_eq_none]
      intro q hq
      simpa using no_match_of_other_owner db uid id p hnodup hp hpid huser q hq
    rw [this]
  · intro plotIdRaw p st nameRaw freshId hnodup hvalid hp hpid huser
    have hne : normalizeName plotIdRaw ≠ "" := isValidObjectId_ne_empty hvalid
    exact savePlotH_notFound db uid st nameRaw plotIdRaw freshId hne hvalid
      (no_match_of_other_owner db uid _ p hnodup hp hpid huser)

/-- Witness for C4: a store holding one plot owned by `u2`, queried by
`u1`. -/
theorem claim_C4_ownership_filter_witness :
    getPlotH [⟨"bbbbbbbbbbbbbbbbbbbbbbbb", "u2", "x", [], []⟩] "u1"
        "bbbbbbbbbbbbbbbbbbbbbbbb" = GetPlotResp.notFound ∧
    savePlotH [⟨"bbbbbbbbbbbbbbbbbbbbbbbb", "u2", "x", [], []⟩] "u1" [] "n"
        "bbbbbbbbbbbbbbbbbbbbbbbb" "f1" =
      ([⟨"bbbbbbbbbbbbbbbbbbbbbbbb", "u2", "x", [], []⟩], SaveResp.notFound) ∧
    (⟨"bbbbbbbbbbbbbbbbbbbbbbbb", "u2", "x", [], []⟩ : Plot) ∈
      listPlotsH [⟨"bbbbbbbbbbbbbbbbbbbbbbbb", "u2", "x", [], []⟩] "u2" := by
  refine ⟨?_, ?_, ?_⟩
  · exact (claim_C4_ownership_filter [⟨"bbbbbbbbbbbbbbbbbbbbbbbb", "u2", "x", [], []⟩]
      "u1").2.1 "bbbbbbbbbbbbbbbbbbbbbbbb" ⟨"bbbbbbbbbbbbbbbbbbbbbbbb", "u2", "x", [], []⟩
      (by decide) (by decide) (List.mem_cons_self _ _) rfl (by decide)
  · exact (claim_C4_ownership_filter [⟨"bbbbbbbbbbbbbbbbbbbbbbbb", "u2", "x", [], []⟩]
      "u1").2.2 "bbbbbbbbbbbbbbbbbbbbbbbb" ⟨"bbbbbbbbbbbbbbbbbbbbbbbb", "u2", "x", [], []⟩
      [] "n" "f1" (by decide) (by decide) (List.mem_cons_self _ _) (by decide) (by decide)
  · exact ((claim_C4_ownership_filter [⟨"bbbbbbbbbbbbbbbbbbbbbbbb", "u2", "x", [], []⟩]
      "u2").1 ⟨"bbbbbbbbbbbbbbbbbbbbbbbb", "u2", "x", [], []⟩).2
      ⟨List.mem_cons_self _ _, rfl⟩

/-- C9: the save endpoint never writes the legacy `inputs` sequence (or
the owner) from request data — an update rewrites only `state` and `name`
of the matched plot and leaves every plot's id, owner and inputs exactly
as they were, and a create starts with an empty inputs sequence. -/
theorem claim_C9_inputs_never_written (db : List Plot) (uid : String)
    (st : List StageNodeRec) (nameRaw plotIdRaw freshId : String) :
    (normalizeName plotIdRaw ≠ "" →
      (savePlotH db uid st nameRaw plotIdRaw freshId).1.map
          (fun p => (p.pid, p.userId, p.inputs)) =
        db.map (fun p => (p.pid, p.userId, p.inputs))) ∧
    (normalizeName plotIdRaw = "" →
      (savePlotH db uid st nameRaw plotIdRaw freshId).1 =
        db ++ [⟨freshId, uid, normalizeName nameRaw, st, []⟩]) := by
  constructor
  · intro hne
    unfold savePlotH
    rw [if_pos hne]
    by_cases hvalid : isValidObjectId (normalizeName plotIdRaw) = true
    · rw [if_neg (by simp [hvalid])]
      rcases hopt : updateFirst db (normalizeName plotIdRaw) uid st
          (normalizeName nameRaw) with _ | db'
      · rfl
      · exact updateFirst_preserves_ids_users_inputs _ _ _ _ _ _ hopt
    · rw [if_pos (by simpa using hvalid)]
  · intro hz
    rw [savePlotH_create db uid st nameRaw plotIdRaw freshId hz]

/-- Witness for C9: an update leaves a concrete plot's inputs and owner in
place; a create starts with empty inputs. -/
theorem claim_C9_inputs_never_written_witness :
    ((savePlotH [⟨"aaaaaaaaaaaaaaaaaaaaaaaa", "u1", "old", [], [⟨"i1", "1", "Guitar", "SM57"⟩]⟩]
        "u1" [] "new" "aaaaaaaaaaaaaaaaaaaaaaaa" "f1").1.map
          (fun p => (p.pid, p.userId, p.inputs)) =
      [("aaaaaaaaaaaaaaaaaaaaaaaa", "u1", [⟨"i1", "1", "Guitar", "SM57"⟩])]) ∧
    ((savePlotH [] "u1" [] "n" "" "f1").1 = [⟨"f1", "u1", "n", [], []⟩]) := by
  constructor
  · exact ((claim_C9_inputs_never_written
      [⟨"aaaaaaaaaaaaaaaaaaaaaaaa", "u1", "old", [], [⟨"i1", "1", "Guitar", "SM57"⟩]⟩]
      "u1" [] "new" "aaaaaaaaaaaaaaaaaaaaaaaa" "f1").1 (by decide)).trans (by decide)
  · exact ((claim_C9_inputs_never_written [] "u1" [] "n" "" "f1").2 (by decide)).trans
      (by decide)

/-- C3: every taxonomy-writing operation — the upsert run on asset upload
and asset patch, category creation, and section creation — preserves
uniqueness of category names and of section names within each category,
and never removes or renames an existing category or section. -/
theorem claim_C3_taxonomy_append_only :
    (∀ categoryRaw sectionRaw : String,
      TaxStepOK (fun doc => upsertTaxonomyCategorySection doc categoryRaw sectionRaw)) ∧
    (∀ nameRaw : String, TaxStepOK (fun doc => (createCategoryH doc nameRaw).1)) ∧
    (∀ categoryRaw nameRaw : String,
      TaxStepOK (fun doc => (createSectionH doc categoryRaw nameRaw).1)) :=
  ⟨upsertTaxonomy_TaxStepOK, createCategoryH_TaxStepOK, createSectionH_TaxStepOK⟩

/-- Witness for C3: the upsert applied to a concrete singleton document. -/
theorem claim_C3_taxonomy_append_only_witness :
    TaxonomyWF ⟨[⟨"Drums", ["Kick"]⟩]⟩ ∧
    (∀ t, (some (⟨[]⟩ : Taxonomy)) = some t →
      TaxonomyGrows t ⟨[⟨"Drums", ["Kick"]⟩]⟩) := by
  have h := claim_C3_taxonomy_append_only.1 "Drums" "Kick"
    (some (⟨[]⟩ : Taxonomy)) ⟨[⟨"Drums", ["Kick"]⟩]⟩
    (fun t ht => by
      cases ht
      exact ⟨List.nodup_nil, fun c hc => absurd hc (List.not_mem_nil c)⟩)
    (by decide)
  exact h

end ShowPlot
